import Mathlib

/-!
Shallow embedding of the resilient Esplora client
(`scripts/esplora-client.js` and `scripts/check-payments.js`):
the retry/backoff fetcher, the tip-height parser, the block-transaction
pager, and the address-payment aggregation, with theorems checking the
specification's claims about them.
-/

/-- An HTTP response as the `fetch` promise resolves it: status code,
status text and (pre-read) body text. -/
structure Response where
  status : Nat
  statusText : String
  body : String
deriving Repr, DecidableEq

/-- `res.ok` of the WHATWG fetch API: status in the 2xx range. -/
def Response.isOk (r : Response) : Bool := 200 ≤ r.status && r.status ≤ 299

/-- The outcome of one raw `fetch(url, …)` call: either the promise
resolves with a response (of any status), or it rejects
(`AbortError` from the timeout controller, or a transport error). -/
inductive NetResult where
  | response (r : Response)
  | netError (name message : String)
deriving Repr, DecidableEq

/-- A JavaScript `Error` value as thrown by the client code:
`http` models the `new Error("HTTP <status> <statusText> - <body>")`
object with its extra `status` field, `net` a rejection from `fetch`,
`shape` a `new Error(msg)` thrown on an unexpected response shape. -/
inductive JsError where
  | http (status : Nat) (message : String)
  | net (name message : String)
  | shape (message : String)
deriving Repr, DecidableEq

/-- The error object built by `fetchWithRetry` for a non-2xx response:
`new Error(\x7bHTTP ${res.status} ${res.statusText} - ${text}\x7d)` with
`err.status = res.status`.  The body text is embedded whole. -/
def mkHttpError (r : Response) : JsError :=
  .http r.status ("HTTP " ++ toString r.status ++ " " ++ r.statusText ++ " - " ++ r.body)

/-- One iteration of the `try` block of `fetchWithRetry`: a resolved
response with `res.ok` is returned, a resolved non-2xx response is turned
into the HTTP error and thrown, a rejected fetch rethrows its error. -/
def attemptResult : NetResult → Except JsError Response
  | .response r => if r.isOk then .ok r else .error (mkHttpError r)
  | .netError name message => .error (.net name message)

/-- The backoff sleep computed after failed attempt `attempt`:
`200 * Math.pow(2, attempt - 1)` milliseconds. -/
def backoff (attempt : Nat) : Nat := 200 * 2 ^ (attempt - 1)

/-- One observable event of a `fetchWithRetry` run: an attempt being
issued, or a backoff sleep of the given number of milliseconds. -/
inductive Event where
  | attempt (n : Nat)
  | sleep (ms : Nat)
deriving Repr, DecidableEq

/-- The trace of one `fetchWithRetry` call: how many attempts were made,
the ordered event trace (attempts and sleeps), and the returned response
or the thrown error. -/
structure RunResult where
  attempts : Nat
  trace : List Event
  result : Except JsError Response
deriving Repr

/-- The `while (true)` loop of `fetchWithRetry`, unrolled by structural
recursion: `a` is the 1-based number of the attempt about to be made and
`rem` the saturated difference `retries - a` (so the loop's exit test
`attempt >= retries` holds exactly when `rem = 0`).  `env a` is the raw
outcome the network gives attempt `a`. -/
def fetchGo (env : Nat → NetResult) (a : Nat) : Nat → RunResult
  | 0 =>
    match attemptResult (env a) with
    | .ok r => ⟨1, [.attempt a], .ok r⟩
    | .error e => ⟨1, [.attempt a], .error e⟩
  | rem + 1 =>
    match attemptResult (env a) with
    | .ok r => ⟨1, [.attempt a], .ok r⟩
    | .error _ =>
      let rest := fetchGo env (a + 1) rem
      ⟨rest.attempts + 1, .attempt a :: .sleep (backoff a) :: rest.trace, rest.result⟩

/-- `fetchWithRetry(url, opts, retries, timeout)` against an environment
`env` giving each attempt's raw outcome: start at attempt 1 with
`retries - 1` retry opportunities left. -/
def fetchWithRetry (env : Nat → NetResult) (retries : Nat) : RunResult :=
  fetchGo env 1 (retries - 1)

theorem fetchGo_attempts_pos (env : Nat → NetResult) (a rem : Nat) :
    1 ≤ (fetchGo env a rem).attempts := by
  cases rem with
  | zero =>
    simp only [fetchGo]
    cases attemptResult (env a) <;> simp
  | succ rem =>
    simp only [fetchGo]
    cases attemptResult (env a) <;> simp

theorem fetchGo_trace (env : Nat → NetResult) (rem : Nat) : ∀ a : Nat, 1 ≤ a →
    (fetchGo env a rem).trace =
      .attempt a :: (List.map
        (fun i => [Event.sleep (200 * 2 ^ (a - 1 + i)), Event.attempt (a + 1 + i)])
        (List.range ((fetchGo env a rem).attempts - 1))).flatten := by
  induction rem with
  | zero =>
    intro a _
    simp only [fetchGo]
    cases attemptResult (env a) <;> simp
  | succ rem ih =>
    intro a ha
    simp only [fetchGo]
    cases h : attemptResult (env a) with
    | ok r => simp
    | error e =>
      have hpos := fetchGo_attempts_pos env (a + 1) rem
      simp only [Nat.add_sub_cancel]
      rw [show (fetchGo env (a + 1) rem).attempts =
            ((fetchGo env (a + 1) rem).attempts - 1) + 1 by omega]
      rw [List.range_succ_eq_map]
      simp only [List.map_cons, List.flatten_cons, List.map_map]
      rw [ih (a + 1) (by omega)]
      rw [show List.map
            ((fun i => [Event.sleep (200 * 2 ^ (a - 1 + i)), Event.attempt (a + 1 + i)]) ∘
              Nat.succ)
            (List.range ((fetchGo env (a + 1) rem).attempts - 1))
          = List.map
            (fun i => [Event.sleep (200 * 2 ^ (a + 1 - 1 + i)), Event.attempt (a + 1 + 1 + i)])
            (List.range ((fetchGo env (a + 1) rem).attempts - 1)) from
        List.map_congr_left (fun i _ => by
          have h1 : a - 1 + (i + 1) = a + i := by omega
          have h2 : a + 1 - 1 + i = a + i := by omega
          have h3 : a + 1 + (i + 1) = a + 1 + 1 + i := by omega
          simp only [Function.comp_apply, Nat.succ_eq_add_one, h1, h2, h3])]
      simp [backoff]

/-- An environment in which every attempt fails (the timeout fires). -/
def envAllFail : Nat → NetResult :=
  fun _ => .netError "AbortError" "This operation was aborted"

/-- An environment that fails attempts 1 and 2 and succeeds from attempt 3 on. -/
def envFailTwice : Nat → NetResult :=
  fun a => if a ≤ 2 then .netError "AbortError" "This operation was aborted"
           else .response ⟨200, "OK", "[]"⟩

theorem fetchGo_all_fail (env : Nat → NetResult) (rem : Nat) : ∀ a : Nat,
    (∀ j, j ≤ rem → ∃ e, attemptResult (env (a + j)) = .error e) →
    (fetchGo env a rem).attempts = rem + 1 ∧
      (fetchGo env a rem).result = attemptResult (env (a + rem)) := by
  induction rem with
  | zero =>
    intro a h
    obtain ⟨e, he⟩ := h 0 (Nat.le_refl 0)
    rw [Nat.add_zero] at he
    simp [fetchGo, he]
  | succ rem ih =>
    intro a h
    obtain ⟨e, he⟩ := h 0 (Nat.zero_le _)
    rw [Nat.add_zero] at he
    have hrec := ih (a + 1) (fun j hj => by
      have := h (j + 1) (by omega)
      rwa [show a + (j + 1) = a + 1 + j by omega] at this)
    simp only [fetchGo, he]
    refine ⟨by rw [hrec.1], ?_⟩
    rw [hrec.2, show a + 1 + rem = a + (rem + 1) by omega]

/-- C1: for every environment and retry budget, the run's event trace is
attempt 1 followed, for each further attempt n = i + 2 actually made, by a
sleep of exactly 200·2^i = baseUnit·2^(n-2) ms immediately before that
attempt; there is no sleep before attempt 1 and none after the final
attempt.  Concretely, two failures then a success under a budget of 3
gives the trace (attempt 1, sleep 200, attempt 2, sleep 400, attempt 3). -/
theorem fetchWithRetry_backoff_schedule (env : Nat → NetResult) (retries : Nat) :
    (1 ≤ (fetchWithRetry env retries).attempts ∧
      (fetchWithRetry env retries).trace =
        Event.attempt 1 :: (List.map
          (fun i => [Event.sleep (200 * 2 ^ i), Event.attempt (i + 2)])
          (List.range ((fetchWithRetry env retries).attempts - 1))).flatten) ∧
    (fetchWithRetry envFailTwice 3).trace =
      [.attempt 1, .sleep 200, .attempt 2, .sleep 400, .attempt 3] ∧
    (fetchWithRetry envFailTwice 3).result = .ok ⟨200, "OK", "[]"⟩ := by
  refine ⟨⟨fetchGo_attempts_pos env 1 _, ?_⟩, by rfl, by rfl⟩
  have h := fetchGo_trace env (retries - 1) 1 (Nat.le_refl 1)
  rw [show fetchWithRetry env retries = fetchGo env 1 (retries - 1) from rfl, h]
  congr 1
  refine congrArg List.flatten (List.map_congr_left (fun i _ => ?_))
  have h1 : 1 - 1 + i = i := by omega
  have h2 : 1 + 1 + i = i + 2 := by omega
  rw [h1, h2]

/-- C6, amended with `1 ≤ retries`: when every one of the first `retries`
attempts fails, the fetcher makes exactly `retries` attempts and its
outcome is exactly the last attempt's error, which it rethrows to the
caller. -/
theorem fetchWithRetry_exhausts_attempts (env : Nat → NetResult) (retries : Nat)
    (hr : 1 ≤ retries)
    (hfail : ∀ a, 1 ≤ a → a ≤ retries → ∃ e, attemptResult (env a) = .error e) :
    (fetchWithRetry env retries).attempts = retries ∧
    (fetchWithRetry env retries).result = attemptResult (env retries) ∧
    ∃ e, (fetchWithRetry env retries).result = Except.error e := by
  have h := fetchGo_all_fail env (retries - 1) 1 (fun j hj => hfail (1 + j) (by omega) (by omega))
  rw [show 1 + (retries - 1) = retries by omega] at h
  have hlast := hfail retries hr (Nat.le_refl _)
  obtain ⟨e, he⟩ := hlast
  refine ⟨by rw [show fetchWithRetry env retries = fetchGo env 1 (retries - 1) from rfl, h.1]; omega,
          by rw [show fetchWithRetry env retries = fetchGo env 1 (retries - 1) from rfl, h.2],
          ⟨e, by rw [show fetchWithRetry env retries = fetchGo env 1 (retries - 1) from rfl, h.2, he]⟩⟩

/-- C6 fails as stated at `maxAttempts = 0`: even with a retry budget of
0 total attempts the loop body runs once, so the fetcher makes 1 attempt,
not 0, when every attempt fails. -/
theorem fetchWithRetry_zero_budget_counterexample :
    (fetchWithRetry envAllFail 0).attempts = 1 ∧
    ¬ (fetchWithRetry envAllFail 0).attempts = 0 := by
  constructor <;> decide

/-- Witness for the amended C6 at a concrete input. -/
theorem fetchWithRetry_exhausts_attempts_witness :
    (fetchWithRetry envAllFail 3).attempts = 3 ∧
    (fetchWithRetry envAllFail 3).result = attemptResult (envAllFail 3) ∧
    ∃ e, (fetchWithRetry envAllFail 3).result = Except.error e :=
  fetchWithRetry_exhausts_attempts envAllFail 3 (by decide)
    (fun _ _ _ => ⟨.net "AbortError" "This operation was aborted", rfl⟩)

/-- C7, amended: a non-2xx response makes the attempt fail (it is never
returned as a success) with the HTTP error carrying the status code and
the full (not truncated) response body in its message, and under a budget
of at least 2 a first such failure is followed by another attempt. -/
theorem nonOkResponse_is_failure (r : Response) (hok : r.isOk = false) :
    attemptResult (.response r) = .error (mkHttpError r) ∧
    mkHttpError r = .http r.status
      ("HTTP " ++ toString r.status ++ " " ++ r.statusText ++ " - " ++ r.body) ∧
    ∀ env (retries : Nat), 2 ≤ retries → env 1 = .response r →
      2 ≤ (fetchWithRetry env retries).attempts := by
  refine ⟨by simp [attemptResult, hok], rfl, ?_⟩
  intro env retries hr henv
  have herr : attemptResult (env 1) = .error (mkHttpError r) := by
    rw [henv]; simp [attemptResult, hok]
  obtain ⟨k, hk⟩ : ∃ k, retries - 1 = k + 1 := ⟨retries - 2, by omega⟩
  rw [show fetchWithRetry env retries = fetchGo env 1 (retries - 1) from rfl, hk]
  simp only [fetchGo, herr]
  have := fetchGo_attempts_pos env 2 k
  simp
  omega

/-- A 1000-character response body. -/
def longBody : String := String.mk (List.replicate 1000 'a')

set_option maxRecDepth 10000 in
/-- C7 fails as stated on the "truncated" part: the error built for a
non-2xx response embeds the full 1000-character body, untruncated, in its
message. -/
theorem httpError_full_body_counterexample :
    mkHttpError ⟨500, "Internal Server Error", longBody⟩ =
      .http 500 ("HTTP 500 Internal Server Error - " ++ longBody) ∧
    longBody.length = 1000 := by
  exact ⟨rfl, by simp [longBody, String.length, List.length_replicate]⟩

/-- Witness for the amended C7 at a concrete input. -/
theorem nonOkResponse_is_failure_witness :
    attemptResult (.response ⟨404, "Not Found", "missing"⟩)
      = .error (mkHttpError ⟨404, "Not Found", "missing"⟩) ∧
    2 ≤ (fetchWithRetry (fun _ => .response ⟨404, "Not Found", "missing"⟩) 2).attempts :=
  ⟨(nonOkResponse_is_failure ⟨404, "Not Found", "missing"⟩ (by decide)).1,
   (nonOkResponse_is_failure ⟨404, "Not Found", "missing"⟩ (by decide)).2.2
     (fun _ => .response ⟨404, "Not Found", "missing"⟩) 2 (by decide) rfl⟩

/-- A decimal digit as `parseInt` with radix 10 consumes one: `'0'..'9'`. -/
def isDecDigit (c : Char) : Bool := 48 ≤ c.toNat && c.toNat ≤ 57

/-- The whitespace stripped by `text.trim()` and skipped by `parseInt`
(the common ASCII whitespace characters). -/
def isJsWs (c : Char) : Bool :=
  c.toNat = 32 || c.toNat = 9 || c.toNat = 10 ||
    c.toNat = 13 || c.toNat = 11 || c.toNat = 12

/-- `text.trim()`: strip whitespace from both ends of the text. -/
def jsTrim (cs : List Char) : List Char :=
  ((cs.dropWhile isJsWs).reverse.dropWhile isJsWs).reverse

/-- The numeric value of one decimal digit character. -/
def digitVal (c : Char) : Nat := c.toNat - 48

/-- The value of a string of decimal digits, most significant first. -/
def natOfDigits (ds : List Char) : Nat := ds.foldl (fun n c => 10 * n + digitVal c) 0

/-- JavaScript `parseInt(s, 10)`: skip leading whitespace, consume an
optional sign, then the longest prefix of decimal digits; the result is
`NaN` (here `none`) when that prefix is empty and otherwise the signed
value of the prefix — any trailing characters are ignored. -/
def parseIntBase10 (cs : List Char) : Option Int :=
  match cs.dropWhile isJsWs with
  | [] => none
  | c :: rest =>
    if c = '-' then
      (if (rest.takeWhile isDecDigit).isEmpty then none
       else some (-(natOfDigits (rest.takeWhile isDecDigit) : Int)))
    else if c = '+' then
      (if (rest.takeWhile isDecDigit).isEmpty then none
       else some ((natOfDigits (rest.takeWhile isDecDigit) : Int)))
    else
      (if ((c :: rest).takeWhile isDecDigit).isEmpty then none
       else some ((natOfDigits ((c :: rest).takeWhile isDecDigit) : Int)))

/-- `getTipHeight` applied to the body text the fetch returned:
`parseInt(text.trim(), 10)`, throwing when the result is `NaN`. -/
def getTipHeight (body : List Char) : Except String Int :=
  match parseIntBase10 (jsTrim body) with
  | none => .error ("Invalid tip height response: " ++ String.mk body)
  | some h => .ok h

theorem dropWhile_eq_self_of_all {p : Char → Bool} {l : List Char}
    (h : ∀ c ∈ l, p c = false) : l.dropWhile p = l := by
  cases l with
  | nil => rfl
  | cons x xs => simp [List.dropWhile, h x (by simp)]

theorem takeWhile_nil_of_all {p : Char → Bool} {l : List Char}
    (h : ∀ c ∈ l, p c = false) : l.takeWhile p = [] := by
  cases l with
  | nil => rfl
  | cons x xs => simp [List.takeWhile, h x (by simp)]

theorem mem_of_mem_dropWhile {p : Char → Bool} {l : List Char} {c : Char}
    (h : c ∈ l.dropWhile p) : c ∈ l := by
  induction l with
  | nil => exact h
  | cons x xs ih =>
    rw [List.dropWhile_cons] at h
    by_cases hx : p x = true
    · rw [if_pos hx] at h
      exact List.mem_cons_of_mem x (ih h)
    · rwa [if_neg hx] at h

theorem mem_of_mem_jsTrim {l : List Char} {c : Char} (h : c ∈ jsTrim l) : c ∈ l := by
  unfold jsTrim at h
  rw [List.mem_reverse] at h
  have h1 := mem_of_mem_dropWhile h
  rw [List.mem_reverse] at h1
  exact mem_of_mem_dropWhile h1

theorem jsTrim_eq_self_of_all {l : List Char} (h : ∀ c ∈ l, isJsWs c = false) :
    jsTrim l = l := by
  unfold jsTrim
  rw [dropWhile_eq_self_of_all h]
  rw [dropWhile_eq_self_of_all (fun c hc => h c (List.mem_reverse.mp hc))]
  exact List.reverse_reverse l

theorem takeWhile_append_of_all {p : Char → Bool} {ds rest : List Char}
    (h1 : ∀ c ∈ ds, p c = true)
    (h2 : ∀ c, rest.head? = some c → p c = false) :
    (ds ++ rest).takeWhile p = ds := by
  induction ds with
  | nil =>
    cases rest with
    | nil => rfl
    | cons r rs => simp [List.takeWhile, h2 r rfl]
  | cons x xs ih =>
    rw [List.cons_append, List.takeWhile_cons, if_pos (h1 x (by simp))]
    rw [ih (fun c hc => h1 c (by simp [hc]))]

theorem isDecDigit_not_ws {c : Char} (h : isDecDigit c = true) : isJsWs c = false := by
  simp only [isDecDigit, Bool.and_eq_true, decide_eq_true_eq] at h
  simp only [isJsWs, Bool.or_eq_false_iff, decide_eq_false_iff_not]
  omega

theorem isDecDigit_ne_sign {c : Char} (h : isDecDigit c = true) :
    c ≠ '-' ∧ c ≠ '+' := by
  constructor <;> rintro rfl <;> simp [isDecDigit] at h

/-- C8, amended: `getTipHeight` succeeds whenever the trimmed body starts
with a nonempty run of decimal digits, returning that prefix's value and
ignoring (rather than rejecting) any trailing non-digit characters; it
fails with the invalid-response error when the body contains no decimal
digit at all. -/
theorem getTipHeight_parseInt_prefix (ds rest : List Char)
    (hne : ds ≠ [])
    (hds : ∀ c ∈ ds, isDecDigit c = true)
    (hrestWs : ∀ c ∈ rest, isJsWs c = false)
    (hrestHd : ∀ c, rest.head? = some c → isDecDigit c = false) :
    getTipHeight (ds ++ rest) = .ok (natOfDigits ds) ∧
    ∀ cs : List Char, (∀ c ∈ cs, isDecDigit c = false) →
      getTipHeight cs = .error ("Invalid tip height response: " ++ String.mk cs) := by
  constructor
  · obtain ⟨d, ds', rfl⟩ : ∃ d ds', ds = d :: ds' := by
      cases ds with
      | nil => exact absurd rfl hne
      | cons d ds' => exact ⟨d, ds', rfl⟩
    have hall : ∀ c ∈ (d :: ds') ++ rest, isJsWs c = false := by
      intro c hc
      rcases List.mem_append.mp hc with hc | hc
      · exact isDecDigit_not_ws (hds c hc)
      · exact hrestWs c hc
    have hd := hds d (by simp)
    obtain ⟨hm, hp⟩ := isDecDigit_ne_sign hd
    unfold getTipHeight
    rw [jsTrim_eq_self_of_all hall]
    have hdrop : ((d :: ds') ++ rest).dropWhile isJsWs = d :: (ds' ++ rest) :=
      dropWhile_eq_self_of_all hall
    simp only [parseIntBase10, hdrop]
    rw [if_neg hm, if_neg hp, ← List.cons_append,
      takeWhile_append_of_all hds hrestHd]
    simp
  · intro cs hcs
    unfold getTipHeight
    cases h : (jsTrim cs).dropWhile isJsWs with
    | nil => simp [parseIntBase10, h]
    | cons c rest' =>
      have hmem : ∀ x ∈ c :: rest', isDecDigit x = false := by
        intro x hx
        exact hcs x (mem_of_mem_jsTrim (mem_of_mem_dropWhile (by rw [h]; exact hx)))
      have hrest : ∀ x ∈ rest', isDecDigit x = false :=
        fun x hx => hmem x (List.mem_cons_of_mem c hx)
      simp only [parseIntBase10, h]
      by_cases h1 : c = '-'
      · rw [if_pos h1, takeWhile_nil_of_all hrest]
        simp
      · rw [if_neg h1]
        by_cases h2 : c = '+'
        · rw [if_pos h2, takeWhile_nil_of_all hrest]
          simp
        · rw [if_neg h2, takeWhile_nil_of_all hmem]
          simp

/-- C8 fails as stated: the body `"123abc"` has trailing non-digit
characters, yet `getTipHeight` succeeds on it with 123 instead of failing
with the invalid-response error. -/
theorem getTipHeight_trailing_garbage_counterexample :
    getTipHeight "123abc".toList = .ok 123 ∧ isDecDigit 'a' = false :=
  ⟨rfl, by decide⟩

/-- Witness for the amended C8 at a concrete input. -/
theorem getTipHeight_parseInt_prefix_witness :
    getTipHeight (['4', '2'] ++ ['x']) = .ok (natOfDigits ['4', '2']) ∧
    getTipHeight ['z'] = .error ("Invalid tip height response: " ++ String.mk ['z']) := by
  have h := getTipHeight_parseInt_prefix ['4', '2'] ['x'] (by decide) (by decide) (by decide)
    (fun c hc => by
      rw [show (['x'] : List Char).head? = some 'x' from rfl] at hc
      injection hc with hx
      rw [← hx]
      decide)
  exact ⟨h.1, h.2 ['z'] (by decide)⟩

/-- The Esplora page size: 25, and offsets must be multiples of it. -/
def PAGE_SIZE : Nat := 25

/-- The pagination loop of `getBlockTxs` over the successive pages the
upstream returns for offsets `start`, `start + 25`, …: append each page
in order, stop after the first page shorter than `PAGE_SIZE`, otherwise
advance the offset by exactly `PAGE_SIZE` and continue.  Returns the
accumulated transactions together with the offsets requested; `none` when
the supplied page sequence runs out before a short page arrives (the real
loop would keep requesting). -/
def getBlockTxsGo {α : Type} : Nat → List (List α) → Option (List α × List Nat)
  | _, [] => none
  | start, p :: ps =>
    if p.length < PAGE_SIZE then some (p, [start])
    else
      match getBlockTxsGo (start + PAGE_SIZE) ps with
      | none => none
      | some (txs, offs) => some (p ++ txs, start :: offs)

/-- `getBlockTxs(apiBase, hash)`: pagination starts at offset 0 with the
first-page endpoint. -/
def getBlockTxs {α : Type} (pages : List (List α)) : Option (List α × List Nat) :=
  getBlockTxsGo 0 pages

theorem offsets_shift (start n : Nat) :
    List.map (fun j => start + PAGE_SIZE * j) (List.range (n + 1))
      = start :: List.map (fun j => start + PAGE_SIZE + PAGE_SIZE * j) (List.range n) := by
  rw [List.range_succ_eq_map]
  simp only [List.map_cons, List.map_map, Nat.mul_zero, Nat.add_zero]
  congr 1
  apply List.map_congr_left
  intro j _
  simp only [Function.comp_apply, Nat.succ_eq_add_one, PAGE_SIZE]
  omega

theorem getBlockTxsGo_spec {α : Type} (i : Nat) : ∀ (start : Nat) (pages : List (List α)),
    i < pages.length →
    (pages.getD i []).length < PAGE_SIZE →
    (∀ j, j < i → PAGE_SIZE ≤ (pages.getD j []).length) →
    getBlockTxsGo start pages =
      some ((pages.take (i + 1)).flatten,
        (List.range (i + 1)).map (fun j => start + PAGE_SIZE * j)) := by
  induction i with
  | zero =>
    intro start pages hlen hshort _
    cases pages with
    | nil => simp at hlen
    | cons p ps =>
      rw [List.getD_cons_zero] at hshort
      rw [getBlockTxsGo, if_pos hshort]
      simp [List.range_succ, Nat.mul_zero]
  | succ i ih =>
    intro start pages hlen hshort hfull
    cases pages with
    | nil => simp at hlen
    | cons p ps =>
      have hp : PAGE_SIZE ≤ p.length := by
        have := hfull 0 (Nat.succ_pos i)
        rwa [List.getD_cons_zero] at this
      have hrec := ih (start + PAGE_SIZE) ps (by simpa using hlen)
        (by rw [← List.getD_cons_succ (x := p)]; exact hshort)
        (fun j hj => by
          have := hfull (j + 1) (by omega)
          rwa [List.getD_cons_succ] at this)
      rw [getBlockTxsGo, if_neg (by omega), hrec]
      rw [List.take_succ_cons, List.flatten_cons, offsets_shift start (i + 1)]

/-- C2: for every upstream page sequence whose first short page (length
< 25) is page `i` (0-based), the pager returns the in-order concatenation
of pages 0..i, having requested exactly the offsets 0, 25, …, 25·i — it
advances the offset by exactly 25 after every full page and stops right
after the first short page. -/
theorem getBlockTxs_pagination {α : Type} (pages : List (List α)) (i : Nat)
    (hi : i < pages.length)
    (hshort : (pages.getD i []).length < PAGE_SIZE)
    (hfull : ∀ j, j < i → PAGE_SIZE ≤ (pages.getD j []).length) :
    getBlockTxs pages =
      some ((pages.take (i + 1)).flatten,
        (List.range (i + 1)).map (fun j => PAGE_SIZE * j)) := by
  rw [getBlockTxs, getBlockTxsGo_spec i 0 pages hi hshort hfull]
  congr 1
  refine congrArg _ (List.map_congr_left (fun j _ => ?_))
  omega

/-- The page-length sequence [25, 25, 25, 10] from the specification. -/
def pages4 : List (List Nat) :=
  [List.range 25, List.range 25, List.range 25, List.range 10]

/-- Witness for C2: the [25,25,25,10] sequence stops after the 4th page
with 85 transactions from offsets 0, 25, 50, 75, and a single short page
yields just that page from offset 0. -/
theorem getBlockTxs_pagination_witness :
    getBlockTxs pages4 = some ((pages4.take 4).flatten,
      (List.range 4).map (fun j => PAGE_SIZE * j)) ∧
    ((pages4.take 4).flatten).length = 85 ∧
    (List.range 4).map (fun j => PAGE_SIZE * j) = [0, 25, 50, 75] ∧
    getBlockTxs [[1, 2, 3]] = some ([1, 2, 3], [0]) :=
  ⟨getBlockTxs_pagination pages4 3 (by decide) (by decide) (by decide),
   by decide, by decide, by decide⟩

/-- One transaction output: optional destination address
(`scriptpubkey_address` — some output scripts have none) and its value in
satoshis. -/
structure Vout where
  scriptpubkey_address : Option String
  value : Int
deriving Repr, DecidableEq

/-- A transaction's status object: the `confirmed` flag and, when known,
the block height. -/
structure TxStatus where
  confirmed : Bool
  block_height : Option Int
deriving Repr, DecidableEq

/-- A transaction as the endpoints return it, restricted to the fields the
program reads; `status` is optional since the code guards `tx.status && …`. -/
structure Tx where
  txid : String
  vout : List Vout
  status : Option TxStatus
deriving Repr, DecidableEq

/-- JavaScript truthiness of an optional string field: a missing field
and the empty string are both falsy. -/
def jsTruthy : Option String → Bool
  | none => false
  | some s => s != ""

/-- `extractIncomingAmount(address, tx)`: fold over `tx.vout`, adding
`v.value` whenever `v.scriptpubkey_address` is truthy and strictly equal
to the target address (the `Number(...)` coercion of the source is the
identity on the integer values modelled here). -/
def extractIncomingAmount (address : String) (tx : Tx) : Int :=
  tx.vout.foldl
    (fun sum v =>
      if jsTruthy v.scriptpubkey_address && (v.scriptpubkey_address == some address)
      then sum + v.value else sum) 0

/-- The incoming amount in the words of the specification: the sum of the
values of exactly those outputs whose destination address is string-equal
to the target address, outputs with a missing destination contributing
nothing.  Defined from the claim's words, for comparison with
`extractIncomingAmount`. -/
def claimIncomingAmount (address : String) (tx : Tx) : Int :=
  ((tx.vout.filter (fun v => v.scriptpubkey_address == some address)).map Vout.value).sum

/-- JS `Map.set` on an association list: replace the value at the first
occurrence of the key, keeping its position; append a new key at the end
(a JS `Map` iterates in insertion order). -/
def mapSet : List (String × Tx) → String → Tx → List (String × Tx)
  | [], k, v => [(k, v)]
  | (k', v') :: rest, k, v =>
    if k' = k then (k, v) :: rest else (k', v') :: mapSet rest k v

/-- JS `Map.get` on the association list. -/
def lookupTx : List (String × Tx) → String → Option Tx
  | [], _ => none
  | (k', v') :: rest, k => if k' = k then some v' else lookupTx rest k

/-- The merge in `main`: insert every confirmed transaction, then every
mempool transaction, into one map keyed by `txid` — a mempool entry
overwrites a confirmed entry with the same identifier. -/
def buildTxMap (confirmed mempool : List Tx) : List (String × Tx) :=
  (confirmed ++ mempool).foldl (fun m tx => mapSet m tx.txid tx) []

/-- The confirmation count computed in `main`: when `tx.status` is truthy,
its `confirmed` flag set and its `block_height` a number,
`tip - block_height + 1`; otherwise 0. -/
def confirmationsOf (tip : Int) (tx : Tx) : Int :=
  match tx.status with
  | some st =>
    if st.confirmed then
      match st.block_height with
      | some h => tip - h + 1
      | none => 0
    else 0
  | none => 0

/-- One reported payment.  The display-only `amount_btc` string (produced
by floating-point `toFixed(8)`) is not modelled. -/
structure Payment where
  txid : String
  amount_sats : Int
  confirmations : Int
deriving Repr, DecidableEq

/-- The payment-building loop of `main`: walk the merged map in order and
keep an entry iff its incoming amount is strictly positive
(`!amount || amount <= 0` skips it), with its confirmation count. -/
def paymentsRaw (address : String) (tip : Int) (m : List (String × Tx)) : List Payment :=
  m.filterMap (fun e =>
    let amount := extractIncomingAmount address e.2
    if amount ≤ 0 then none
    else some ⟨e.1, amount, confirmationsOf tip e.2⟩)

/-- The order established by the sort comparator in `main`
(`b.confirmations - a.confirmations`, tie-broken by
`b.amount_sats - a.amount_sats`): `a` precedes `b` when `a` has strictly
more confirmations, or equally many and at least as large an amount. -/
def PaymentLE (a b : Payment) : Prop :=
  b.confirmations < a.confirmations ∨
    (a.confirmations = b.confirmations ∧ b.amount_sats ≤ a.amount_sats)

instance : DecidableRel PaymentLE :=
  fun a b => decidable_of_iff
    (b.confirmations < a.confirmations ∨
      (a.confirmations = b.confirmations ∧ b.amount_sats ≤ a.amount_sats)) Iff.rfl

instance : IsTotal Payment PaymentLE :=
  ⟨fun a b => by unfold PaymentLE; omega⟩

instance : IsTrans Payment PaymentLE :=
  ⟨fun a b c hab hbc => by unfold PaymentLE at *; omega⟩

/-- `payments.sort(cmp)`: the ECMAScript sort is stable and sorts by the
comparator, which is exactly what an insertion sort by `PaymentLE`
produces. -/
def sortPayments (l : List Payment) : List Payment := List.insertionSort PaymentLE l

/-- The parsed JSON body of a transaction-list endpoint: an array of
transactions, or a JSON value of some other shape. -/
inductive Json where
  | arr (txs : List Tx)
  | nonArray
deriving Repr

/-- `getAddressTxs`: one fetch of the first page of address transactions;
a non-array body throws `new Error('Unexpected address txs response')`,
and a fetch failure propagates. -/
def getAddressTxs : Except JsError Json → Except JsError (List Tx)
  | .error e => .error e
  | .ok (.arr l) => .ok l
  | .ok .nonArray => .error (.shape "Unexpected address txs response")

/-- `getAddressMempoolTxs`: a failed fetch (after its own retries) is
caught and yields `[]`, and a non-array body also yields `[]`; this call
never fails. -/
def getAddressMempoolTxs : Except JsError Json → List Tx
  | .error _ => []
  | .ok (.arr l) => l
  | .ok .nonArray => []

/-- The core of `main` in `check-payments.js` as a function of the three
fetch outcomes (tip height, confirmed first page, mempool page): build
the merged map, filter to strictly positive incoming amounts, sort, and
return the tip with the payment list; errors of the tip or
confirmed-transactions fetches propagate to the caller. -/
def getPayments (address : String) (tipRes : Except JsError Int)
    (confirmedRes mempoolRes : Except JsError Json) :
    Except JsError (Int × List Payment) := do
  let tip ← tipRes
  let confirmed ← getAddressTxs confirmedRes
  let mempool := getAddressMempoolTxs mempoolRes
  pure (tip, sortPayments (paymentsRaw address tip (buildTxMap confirmed mempool)))

theorem lookupTx_mapSet (m : List (String × Tx)) (k : String) (v : Tx) (k' : String) :
    lookupTx (mapSet m k v) k' = if k' = k then some v else lookupTx m k' := by
  induction m with
  | nil =>
    simp only [mapSet, lookupTx]
    by_cases h : k = k'
    · subst h
      simp
    · rw [if_neg h, if_neg (fun hh => h hh.symm)]
  | cons e rest ih =>
    obtain ⟨k0, v0⟩ := e
    simp only [mapSet]
    by_cases h0 : k0 = k
    · subst h0
      rw [if_pos rfl]
      simp only [lookupTx]
      by_cases h1 : k0 = k'
      · subst h1
        rw [if_pos rfl, if_pos rfl]
      · rw [if_neg h1, if_neg (fun hh => h1 hh.symm), if_neg h1]
    · rw [if_neg h0]
      simp only [lookupTx]
      by_cases h1 : k0 = k'
      · subst h1
        rw [if_pos rfl, if_neg h0, if_pos rfl]
      · rw [if_neg h1, if_neg h1, ih]

theorem mem_keys_mapSet {m : List (String × Tx)} {k : String} {v : Tx} {x : String}
    (h : x ∈ (mapSet m k v).map Prod.fst) : x = k ∨ x ∈ m.map Prod.fst := by
  induction m with
  | nil => simpa [mapSet] using h
  | cons e rest ih =>
    obtain ⟨k0, v0⟩ := e
    simp only [mapSet] at h
    by_cases h0 : k0 = k
    · rw [if_pos h0] at h
      simp only [List.map_cons, List.mem_cons] at h
      rcases h with rfl | h
      · exact .inl rfl
      · exact .inr (by simp [h])
    · rw [if_neg h0] at h
      simp only [List.map_cons, List.mem_cons] at h
      rcases h with rfl | h
      · exact .inr (by simp)
      · rcases ih h with h | h
        · exact .inl h
        · exact .inr (by simp [h])

theorem nodup_keys_mapSet {m : List (String × Tx)} (k : String) (v : Tx)
    (h : (m.map Prod.fst).Nodup) : ((mapSet m k v).map Prod.fst).Nodup := by
  induction m with
  | nil => simp [mapSet]
  | cons e rest ih =>
    obtain ⟨k0, v0⟩ := e
    simp only [List.map_cons, List.nodup_cons] at h
    by_cases h0 : k0 = k
    · subst h0
      simp only [mapSet, eq_self_iff_true, if_true, List.map_cons, List.nodup_cons]
      exact h
    · simp only [mapSet, if_neg h0, List.map_cons, List.nodup_cons]
      refine ⟨fun hk => ?_, ih h.2⟩
      rcases mem_keys_mapSet hk with rfl | hk
      · exact h0 rfl
      · exact h.1 hk

theorem nodup_keys_foldl (txs : List Tx) : ∀ m : List (String × Tx),
    (m.map Prod.fst).Nodup →
    ((txs.foldl (fun m tx => mapSet m tx.txid tx) m).map Prod.fst).Nodup := by
  induction txs with
  | nil => exact fun m h => h
  | cons t ts ih => exact fun m h => ih _ (nodup_keys_mapSet t.txid t h)

theorem nodup_keys_buildTxMap (c mm : List Tx) :
    ((buildTxMap c mm).map Prod.fst).Nodup :=
  nodup_keys_foldl (c ++ mm) [] (by simp)

theorem lookup_of_mem : ∀ {m : List (String × Tx)}, (m.map Prod.fst).Nodup →
    ∀ {e : String × Tx}, e ∈ m → lookupTx m e.1 = some e.2 := by
  intro m
  induction m with
  | nil => intro _ e he; cases he
  | cons e0 rest ih =>
    intro hnd e he
    simp only [List.map_cons, List.nodup_cons] at hnd
    rcases List.mem_cons.mp he with rfl | he'
    · obtain ⟨k0, v0⟩ := e
      simp [lookupTx]
    · have hne : e0.1 ≠ e.1 :=
        fun hh => hnd.1 (hh ▸ List.mem_map_of_mem Prod.fst he')
      obtain ⟨k0, v0⟩ := e0
      simp only [lookupTx, if_neg hne]
      exact ih hnd.2 he'

theorem mem_of_lookupTx : ∀ {m : List (String × Tx)} {k : String} {tx : Tx},
    lookupTx m k = some tx → (k, tx) ∈ m := by
  intro m
  induction m with
  | nil => intro k tx h; cases h
  | cons e rest ih =>
    intro k tx h
    obtain ⟨k0, v0⟩ := e
    simp only [lookupTx] at h
    by_cases h0 : k0 = k
    · rw [if_pos h0] at h
      subst h0
      rw [Option.some.injEq] at h
      subst h
      exact List.mem_cons_self _ _
    · rw [if_neg h0] at h
      exact List.mem_cons_of_mem _ (ih h)

theorem lookupTx_foldl_of_none (ts : List Tx) : ∀ (m : List (String × Tx)) (k : String),
    (∀ t ∈ ts, t.txid ≠ k) →
    lookupTx (ts.foldl (fun m tx => mapSet m tx.txid tx) m) k = lookupTx m k := by
  induction ts with
  | nil => intro m k _; rfl
  | cons t ts ih =>
    intro m k h
    rw [List.foldl_cons, ih _ k (fun t' ht' => h t' (List.mem_cons_of_mem t ht')),
      lookupTx_mapSet, if_neg (fun hh => h t (List.mem_cons_self t ts) hh.symm)]

theorem lookupTx_foldl_mem (ts : List Tx) : ∀ (m : List (String × Tx)) (k : String),
    (∃ t ∈ ts, t.txid = k) →
    ∃ t ∈ ts, t.txid = k ∧
      lookupTx (ts.foldl (fun m tx => mapSet m tx.txid tx) m) k = some t := by
  induction ts with
  | nil => rintro m k ⟨t, ht, _⟩; cases ht
  | cons t ts ih =>
    intro m k hex
    by_cases hts : ∃ t' ∈ ts, t'.txid = k
    · obtain ⟨t', ht', hk', hl'⟩ := ih (mapSet m t.txid t) k hts
      exact ⟨t', List.mem_cons_of_mem t ht', hk', hl'⟩
    · obtain ⟨t0, ht0, hk0⟩ := hex
      rcases List.mem_cons.mp ht0 with rfl | hmem
      · refine ⟨t0, List.mem_cons_self t0 ts, hk0, ?_⟩
        rw [List.foldl_cons,
          lookupTx_foldl_of_none ts _ k (fun t' ht' hk' => hts ⟨t', ht', hk'⟩),
          lookupTx_mapSet, if_pos hk0.symm]
      · exact absurd ⟨t0, hmem, hk0⟩ hts

theorem mem_paymentsRaw {address : String} {tip : Int} {m : List (String × Tx)}
    {p : Payment} :
    p ∈ paymentsRaw address tip m ↔
      ∃ e ∈ m, 0 < extractIncomingAmount address e.2 ∧
        p = ⟨e.1, extractIncomingAmount address e.2, confirmationsOf tip e.2⟩ := by
  rw [paymentsRaw, List.mem_filterMap]
  constructor
  · rintro ⟨e, he, hfe⟩
    by_cases h : extractIncomingAmount address e.2 ≤ 0
    · rw [if_pos h] at hfe
      cases hfe
    · rw [if_neg h] at hfe
      exact ⟨e, he, by omega, (Option.some.inj hfe).symm⟩
  · rintro ⟨e, he, hpos, rfl⟩
    exact ⟨e, he, by rw [if_neg (by omega)]⟩

theorem extract_foldl (address : String) (hne : address ≠ "") : ∀ (l : List Vout) (acc : Int),
    l.foldl (fun sum v =>
      if jsTruthy v.scriptpubkey_address && (v.scriptpubkey_address == some address)
      then sum + v.value else sum) acc
      = acc + ((l.filter (fun v => v.scriptpubkey_address == some address)).map Vout.value).sum := by
  intro l
  induction l with
  | nil => intro acc; simp
  | cons v vs ih =>
    intro acc
    rw [List.foldl_cons]
    by_cases h : v.scriptpubkey_address = some address
    · have htr : jsTruthy v.scriptpubkey_address = true := by
        rw [h]
        simp [jsTruthy, hne]
      have heq : (v.scriptpubkey_address == some address) = true := by
        rw [h]
        simp
      rw [if_pos (by rw [htr, heq]; rfl)]
      have hfil : List.filter (fun v => v.scriptpubkey_address == some address) (v :: vs)
          = v :: List.filter (fun v => v.scriptpubkey_address == some address) vs := by
        simp [List.filter_cons, heq]
      rw [hfil, ih (acc + v.value)]
      simp only [List.map_cons, List.sum_cons]
      omega
    · have heq : (v.scriptpubkey_address == some address) = false := by
        simp [h]
      rw [if_neg (by rw [heq, Bool.and_false]; simp)]
      have hfil : List.filter (fun v => v.scriptpubkey_address == some address) (v :: vs)
          = List.filter (fun v => v.scriptpubkey_address == some address) vs := by
        simp [List.filter_cons, heq]
      rw [hfil]
      exact ih acc

/-- The spec's worked example: outputs (A,500), (B,300), (A,200),
confirmed at height 91. -/
def txABC : Tx :=
  ⟨"t0", [⟨some "A", 500⟩, ⟨some "B", 300⟩, ⟨some "A", 200⟩], some ⟨true, some 91⟩⟩

/-- A transaction with an empty-string destination address in its only
output. -/
def txEmptyAddr : Tx := ⟨"t1", [⟨some "", 500⟩], none⟩

/-- A confirmed transaction with txid `dup`. -/
def txConf : Tx := ⟨"dup", [⟨some "A", 400⟩], some ⟨true, some 91⟩⟩

/-- An unconfirmed (mempool view) transaction with the same txid `dup`. -/
def txMem : Tx := ⟨"dup", [⟨some "A", 400⟩], some ⟨false, none⟩⟩

/-- C3, amended: for every NON-EMPTY target address, the computed
incoming amount equals the sum of the values of exactly the outputs whose
destination address is string-equal to the target (missing — or empty —
destinations contribute nothing; the code's truthiness guard also drops
an empty-string destination when the target address is itself the empty
string, which is the one divergence from the claim as stated); and a
merged transaction appears in the payment list iff its incoming amount is
strictly positive. -/
theorem extractIncomingAmount_spec :
    (∀ (address : String) (tx : Tx), address ≠ "" →
      extractIncomingAmount address tx = claimIncomingAmount address tx) ∧
    (∀ (address : String) (tip : Int) (c mm : List Tx) (k : String) (tx : Tx),
      lookupTx (buildTxMap c mm) k = some tx →
      ((∃ p ∈ paymentsRaw address tip (buildTxMap c mm), p.txid = k) ↔
        0 < extractIncomingAmount address tx)) := by
  constructor
  · intro address tx hne
    rw [extractIncomingAmount, claimIncomingAmount,
      extract_foldl address hne tx.vout 0, zero_add]
  · intro address tip c mm k tx hlk
    have hnd := nodup_keys_buildTxMap c mm
    constructor
    · rintro ⟨p, hp, hptxid⟩
      obtain ⟨e, he, hpos, rfl⟩ := mem_paymentsRaw.mp hp
      simp only at hptxid
      subst hptxid
      have hl := lookup_of_mem hnd he
      rw [hlk] at hl
      rw [Option.some.inj hl]
      exact hpos
    · intro hpos
      exact ⟨⟨k, extractIncomingAmount address tx, confirmationsOf tip tx⟩,
        mem_paymentsRaw.mpr ⟨(k, tx), mem_of_lookupTx hlk, hpos, rfl⟩, rfl⟩

/-- C3 fails as stated at the empty target address: the output's
destination is the empty string, which is string-equal to the target, so
the claim's sum is 500; the code's truthiness guard skips it and computes
0 (excluding the transaction). -/
theorem extractIncomingAmount_empty_address_counterexample :
    extractIncomingAmount "" txEmptyAddr = 0 ∧
    claimIncomingAmount "" txEmptyAddr = 500 := by
  constructor <;> decide

/-- Witness for the amended C3 at concrete inputs, with the spec's
A/B/C example. -/
theorem extractIncomingAmount_spec_witness :
    extractIncomingAmount "A" txABC = claimIncomingAmount "A" txABC ∧
    ((∃ p ∈ paymentsRaw "A" 100 (buildTxMap [txABC] []), p.txid = "t0") ↔
      0 < extractIncomingAmount "A" txABC) ∧
    extractIncomingAmount "A" txABC = 700 ∧
    extractIncomingAmount "B" txABC = 300 ∧
    extractIncomingAmount "C" txABC = 0 :=
  ⟨extractIncomingAmount_spec.1 "A" txABC (by decide),
   extractIncomingAmount_spec.2 "A" 100 [txABC] [] "t0" txABC (by decide),
   by decide, by decide, by decide⟩

/-- C4: a transaction whose status is confirmed with a known height h has
confirmation count tip - h + 1 (1 when h is the tip height); any
transaction without a confirmed status with a numeric height has count 0;
when a txid occurs in the mempool list, the merged map's entry for it
comes from the mempool list (mempool precedence), so if every mempool
entry with that txid is unconfirmed, the merged entry's count is 0. -/
theorem confirmations_and_merge :
    (∀ (tip h : Int) (txid : String) (vout : List Vout),
      confirmationsOf tip ⟨txid, vout, some ⟨true, some h⟩⟩ = tip - h + 1) ∧
    (∀ (tip : Int) (txid : String) (vout : List Vout),
      confirmationsOf tip ⟨txid, vout, some ⟨true, some tip⟩⟩ = 1) ∧
    (∀ (tip : Int) (tx : Tx),
      (tx.status = none ∨
        ∃ st, tx.status = some st ∧ (st.confirmed = false ∨ st.block_height = none)) →
      confirmationsOf tip tx = 0) ∧
    (∀ (c mm : List Tx) (k : String), (∃ t ∈ mm, t.txid = k) →
      ∃ t ∈ mm, t.txid = k ∧ lookupTx (buildTxMap c mm) k = some t) ∧
    (∀ (c mm : List Tx) (k : String) (tip : Int) (tx : Tx),
      (∀ t ∈ mm, t.status = none ∨
        ∃ st, t.status = some st ∧ (st.confirmed = false ∨ st.block_height = none)) →
      (∃ t ∈ mm, t.txid = k) →
      lookupTx (buildTxMap c mm) k = some tx →
      confirmationsOf tip tx = 0) := by
  have hzero : ∀ (tip : Int) (tx : Tx),
      (tx.status = none ∨
        ∃ st, tx.status = some st ∧ (st.confirmed = false ∨ st.block_height = none)) →
      confirmationsOf tip tx = 0 := by
    intro tip tx h
    rcases h with h | ⟨st, hst, h⟩
    · simp [confirmationsOf, h]
    · rcases h with h | h
      · simp [confirmationsOf, hst, h]
      · simp only [confirmationsOf, hst, h]
        split <;> rfl
  have hprec : ∀ (c mm : List Tx) (k : String), (∃ t ∈ mm, t.txid = k) →
      ∃ t ∈ mm, t.txid = k ∧ lookupTx (buildTxMap c mm) k = some t := by
    intro c mm k hex
    rw [buildTxMap, List.foldl_append]
    exact lookupTx_foldl_mem mm _ k hex
  refine ⟨fun tip h txid vout => rfl,
    fun tip txid vout => by simp [confirmationsOf],
    hzero, hprec, ?_⟩
  intro c mm k tip tx hunconf hex hlk
  obtain ⟨t, ht, _, hl⟩ := hprec c mm k hex
  rw [hlk] at hl
  rw [Option.some.inj hl]
  exact hzero tip t (hunconf t ht)

/-- Witness for C4 at concrete inputs: tip 100, height 91 gives
100 - 91 + 1 (= 10); a txid in both the confirmed and the mempool lists
resolves to the mempool entry, whose count is 0. -/
theorem confirmations_and_merge_witness :
    confirmationsOf 100 ⟨"t", [], some ⟨true, some 91⟩⟩ = 100 - 91 + 1 ∧
    confirmationsOf 100 txMem = 0 ∧
    (100 : Int) - 91 + 1 = 10 :=
  ⟨confirmations_and_merge.1 100 91 "t" [],
   confirmations_and_merge.2.2.2.2 [txConf] [txMem] "dup" 100 txMem
     (fun t ht => by
       rw [List.mem_singleton] at ht
       subst ht
       exact .inr ⟨⟨false, none⟩, rfl, .inl rfl⟩)
     ⟨txMem, List.mem_singleton.mpr rfl, rfl⟩
     (by decide),
   by decide⟩

/-- C5: every payment list a successful `getPayments` run returns is
sorted by confirmations descending, ties broken by incoming amount
descending; the sort only permutes the built payment list; and the spec's
example (10,500), (10,900), (0,50) sorts to (10,900), (10,500), (0,50). -/
theorem getPayments_sorted :
    (∀ (address : String) (tipRes : Except JsError Int)
        (cRes mRes : Except JsError Json) (r : Int × List Payment),
      getPayments address tipRes cRes mRes = .ok r → List.Sorted PaymentLE r.2) ∧
    (∀ l : List Payment, (sortPayments l).Perm l) ∧
    sortPayments [⟨"a", 500, 10⟩, ⟨"b", 900, 10⟩, ⟨"c", 50, 0⟩]
      = [⟨"b", 900, 10⟩, ⟨"a", 500, 10⟩, ⟨"c", 50, 0⟩] := by
  refine ⟨?_, fun l => List.perm_insertionSort PaymentLE l, by decide⟩
  intro address tipRes cRes mRes r h
  cases tipRes with
  | error e => simp [getPayments, Bind.bind, Except.bind] at h
  | ok tip =>
    cases hc : getAddressTxs cRes with
    | error e => simp [getPayments, Bind.bind, Except.bind, hc] at h
    | ok confirmed =>
      simp only [getPayments, Bind.bind, Except.bind, hc, Pure.pure, Except.pure,
        Except.ok.injEq] at h
      rw [← h]
      exact List.sorted_insertionSort PaymentLE _

/-- Witness for C5 at a concrete input. -/
theorem getPayments_sorted_witness :
    List.Sorted PaymentLE
      (((100 : Int), [(⟨"t0", 700, 10⟩ : Payment)]) : Int × List Payment).2 :=
  getPayments_sorted.1 "A" (.ok 100) (.ok (.arr [txABC])) (.ok (.arr []))
    (100, [⟨"t0", 700, 10⟩]) rfl

/-- C9: a mempool fetch failure is locally downgraded to the empty
mempool set, so `getPayments` still succeeds with the confirmed-only
result and the failure never reaches the caller; by contrast a failure of
the tip-height fetch or of the confirmed-transactions fetch propagates
unchanged — the mempool call is the only locally recovered fetch. -/
theorem getPayments_mempool_failure_recovered
    (address : String) (tip : Int) (cl : List Tx) (e e' : JsError)
    (mRes : Except JsError Json) :
    getPayments address (.ok tip) (.ok (.arr cl)) (.error e)
        = getPayments address (.ok tip) (.ok (.arr cl)) (.ok (.arr [])) ∧
    (∃ r, getPayments address (.ok tip) (.ok (.arr cl)) (.error e) = .ok r) ∧
    getPayments address (.error e') (.ok (.arr cl)) mRes = .error e' ∧
    getPayments address (.ok tip) (.error e') mRes = .error e' :=
  ⟨rfl, ⟨_, rfl⟩, rfl, rfl⟩

/-- C10: a successful response whose JSON body is not an array yields the
empty list from the mempool fetch (the aggregation proceeds as with an
empty mempool), while the same shape makes the confirmed-transactions
fetch — and with it the whole `getPayments` run — fail with the
unexpected-response error. -/
theorem nonArray_fatal_only_for_confirmed
    (address : String) (tip : Int) (cl : List Tx) (mRes : Except JsError Json) :
    getAddressMempoolTxs (.ok .nonArray) = [] ∧
    getAddressTxs (.ok .nonArray) = .error (.shape "Unexpected address txs response") ∧
    getPayments address (.ok tip) (.ok (.arr cl)) (.ok .nonArray)
        = getPayments address (.ok tip) (.ok (.arr cl)) (.ok (.arr [])) ∧
    (∃ r, getPayments address (.ok tip) (.ok (.arr cl)) (.ok .nonArray) = .ok r) ∧
    getPayments address (.ok tip) (.ok .nonArray) mRes
        = .error (.shape "Unexpected address txs response") :=
  ⟨rfl, rfl, rfl, ⟨_, rfl⟩, rfl⟩
